import Mathlib

/-!
Verification of the open-interest aggregation and alerting pipeline of
`src/main.py`.  Numeric values are modelled as rationals (the source uses
Python floats); Python runtime errors (KeyError, ZeroDivisionError,
statistics.StatisticsError, AttributeError, TypeError) are modelled with an
explicit error type and `Except`.  Python dicts are modelled as
insertion-ordered association lists with updates that replace in place, which
matches CPython dict semantics.
-/

namespace CryptoOI

/-- A Python dict from coin symbol to a numeric value, as an insertion-ordered
association list.  `List.lookup` returns the first binding, and `dictSet`
keeps keys unique, exactly as a Python dict does. -/
abbrev Dict := List (String × ℚ)

/-- The Python runtime errors the script can raise in the modelled code. -/
inductive PyErr where
  | keyError (coin : String)
  | zeroDivisionError
  | statisticsError (msg : String)
  | attributeError
  | typeError
deriving DecidableEq

/-- One slot of the `responses` list that `asyncio.gather(*tasks,
return_exceptions=True)` produces in `oi` (main.py line 131) and that
`aggregate_oi` consumes:
* `absent` — a falsy slot: `None` (a `get_oi_binance` call that dropped its
  value) or an empty dict; skipped by `if not r: continue` (line 26);
* `scalar coin value` — the single-key dict `{coin: oi}` returned by a
  successful `get_oi_binance` call (line 67);
* `tagged src entries` — the single-key dict `{'bybit': [...]} `/`{'ftx':
  [...]}` returned by `get_oi_bybit` / `get_oi_ftx` (lines 91, 110), whose
  value is a list of single-key dicts, here a list of pairs;
* `failure` — an exception object stored in the slot by
  `return_exceptions=True` when an adapter task raised. -/
inductive AdapterOutput where
  | absent
  | scalar (coin : String) (value : ℚ)
  | tagged (src : String) (entries : List (String × ℚ))
  | failure
deriving DecidableEq

/-- `d.get(k, 0)` of a Python dict (main.py lines 32, 34). -/
def dictGetD (d : Dict) (k : String) : ℚ :=
  (List.lookup k d).getD 0

/-- `d[k] = v` of a Python dict: replace the first binding of `k` in place,
or append a new binding at the end. -/
def dictSet : Dict → String → ℚ → Dict
  | [], k, v => [(k, v)]
  | p :: rest, k, v => if p.1 = k then (k, v) :: rest else p :: dictSet rest k v

/-- `curr_oi[key] = curr_oi.get(key, 0) + v` (main.py lines 32 and 34). -/
def addContribution (d : Dict) (coin : String) (v : ℚ) : Dict :=
  dictSet d coin (dictGetD d coin + v)

/-- One iteration of the `for r in responses` loop of `aggregate_oi`
(main.py lines 25-34).  A falsy slot is skipped; on an exception object
`list(r.keys())` raises AttributeError; a dict whose first key is `'bybit'`
or `'ftx'` has its list of single-key dicts folded in; any other dict adds
its single contribution.  A scalar payload under a `'bybit'`/`'ftx'` key or a
list payload under another key would raise TypeError in Python. -/
def processOutput (d : Dict) : AdapterOutput → Except PyErr Dict
  | .absent => .ok d
  | .failure => .error .attributeError
  | .scalar coin v =>
      if coin = "bybit" ∨ coin = "ftx" then .error .typeError
      else .ok (addContribution d coin v)
  | .tagged src entries =>
      if src = "bybit" ∨ src = "ftx" then
        .ok (entries.foldl (fun acc p => addContribution acc p.1 p.2) d)
      else .error .typeError

/-- The `for r in responses` loop of `aggregate_oi`, threading the
accumulator `curr_oi` and stopping at the first raised error. -/
def aggLoop : Dict → List AdapterOutput → Except PyErr Dict
  | d, [] => .ok d
  | d, r :: rest =>
      match processOutput d r with
      | .ok d2 => aggLoop d2 rest
      | .error e => .error e

/-- `aggregate_oi` (main.py lines 18-36): fold all adapter outputs into one
coin-to-total dict starting from `curr_oi = {}`. -/
def aggregate_oi (responses : List AdapterOutput) : Except PyErr Dict :=
  aggLoop [] responses

/-- An adapter output that `aggregate_oi` processes without raising: not an
exception object, a scalar not keyed by a source tag, a tagged list keyed by
`'bybit'` or `'ftx'`. -/
def wfOutput : AdapterOutput → Bool
  | .absent => true
  | .failure => false
  | .scalar coin _ => !(coin == "bybit") && !(coin == "ftx")
  | .tagged src _ => src == "bybit" || src == "ftx"

/-- Whether one adapter output reports coin `c`. -/
def reportsCoin (c : String) : AdapterOutput → Bool
  | .absent => false
  | .failure => false
  | .scalar coin _ => coin == c
  | .tagged _ entries => entries.any (fun p => p.1 == c)

/-- The total contribution of one adapter output to coin `c`. -/
def contribSum (c : String) : AdapterOutput → ℚ
  | .absent => 0
  | .failure => 0
  | .scalar coin v => if coin == c then v else 0
  | .tagged _ entries => ((entries.filter (fun p => p.1 == c)).map Prod.snd).sum

/-- Whether any output of the collection reports coin `c`. -/
def reported (responses : List AdapterOutput) (c : String) : Bool :=
  responses.any (reportsCoin c)

/-- The sum of coin `c`'s contributions across the whole collection. -/
def totalContrib (responses : List AdapterOutput) (c : String) : ℚ :=
  (responses.map (contribSum c)).sum

/-- Whether a slot is the falsy value skipped by `if not r: continue`. -/
def isAbsent : AdapterOutput → Bool
  | .absent => true
  | _ => false

/-- One iteration of the diff loop of `send_tg` (main.py lines 151-155):
`prev_oi[coin]` raises KeyError when the coin has no baseline; when
`curr - prev == 0` the change is set to `0`; otherwise
`(curr - prev) / prev` raises ZeroDivisionError when `prev == 0`. -/
def relStep (prev : Dict) (acc : Dict) (p : String × ℚ) : Except PyErr Dict :=
  match List.lookup p.1 prev with
  | none => .error (.keyError p.1)
  | some pv =>
      if p.2 - pv = 0 then .ok (dictSet acc p.1 0)
      else if pv = 0 then .error .zeroDivisionError
      else .ok (dictSet acc p.1 ((p.2 - pv) / pv))

/-- The `for coin in curr_oi.keys()` loop of `send_tg` building `oi_diff`. -/
def diffLoop (prev : Dict) : Dict → Dict → Except PyErr Dict
  | acc, [] => .ok acc
  | acc, p :: rest =>
      match relStep prev acc p with
      | .ok acc2 => diffLoop prev acc2 rest
      | .error e => .error e

/-- The `oi_diff` computation of `send_tg` (main.py lines 150-155). -/
def compute_oi_diff (curr prev : Dict) : Except PyErr Dict :=
  diffLoop prev [] curr

/-- `statistics.mean` (main.py line 157): raises StatisticsError on an empty
list, otherwise returns the arithmetic mean. -/
def pymean (xs : List ℚ) : Except PyErr ℚ :=
  if xs.length = 0 then .error (.statisticsError "mean requires at least one data point")
  else .ok (xs.sum / (xs.length : ℚ))

/-- `statistics.stdev` (main.py line 158): raises StatisticsError when fewer
than two data points are present, otherwise returns the sample standard
deviation (n−1 denominator).  The true return value is the square root of
the sample variance; the square root of a rational is irrational in general,
so the ok-value is modelled as the sample variance itself.  Every claim
about this function concerns only its failure condition, and the classifier
is parameterized by the standard-deviation value. -/
def pystdev (xs : List ℚ) : Except PyErr ℚ :=
  if xs.length < 2 then .error (.statisticsError "stdev requires at least two data points")
  else .ok ((xs.map (fun x => (x - xs.sum / (xs.length : ℚ)) ^ 2)).sum / ((xs.length : ℚ) - 1))

/-- The fallible tail of `send_tg` after the snapshot write (main.py lines
150-158): build `oi_diff`, then `statistics.mean`, then `statistics.stdev`.
The first raised error aborts the coroutine before the bucket loop and
before any Telegram call, so a notification is sent iff this is `ok`. -/
def tgOutcome (prev_oi curr_oi : Dict) : Except PyErr (Dict × ℚ × ℚ) :=
  match compute_oi_diff curr_oi prev_oi with
  | .error e => .error e
  | .ok d =>
      match pymean (d.map Prod.snd) with
      | .error e => .error e
      | .ok m =>
          match pystdev (d.map Prod.snd) with
          | .error e => .error e
          | .ok s => .ok (d, m, s)

/-- `send_tg` (main.py lines 136-179) as a state transformer on the durable
snapshot file `agg_oi.json`: the previous snapshot is read (line 145), then
the file is overwritten with `curr_oi` (lines 147-148) BEFORE the diff and
the statistics are computed.  The first component is the file content after
the run; the second is the outcome of the fallible tail, with `error` when
the run aborted before sending any notification. -/
def send_tg (prev_oi curr_oi : Dict) : Dict × Except PyErr (Dict × ℚ × ℚ) :=
  (curr_oi, tgOutcome prev_oi curr_oi)

/-- `coin in ('ETH', 'BTC')` (main.py line 164). -/
def pinnedB (c : String) : Bool :=
  c == "ETH" || c == "BTC"

/-- `oi_diff[coin] >= oi_change_mean + oi_std_dev` (main.py line 166). -/
def gainB (m s : ℚ) (p : String × ℚ) : Bool :=
  decide (p.2 ≥ m + s)

/-- `oi_diff[coin] <= oi_change_mean - oi_std_dev` (main.py line 168). -/
def loseB (m s : ℚ) (p : String × ℚ) : Bool :=
  decide (p.2 ≤ m - s)

/-- One iteration of the bucket loop of `send_tg` (main.py lines 163-169),
with the three message strings abstracted to the lists of appended coins. -/
def bucketStep (m s : ℚ) (acc : List String × List String × List String)
    (p : String × ℚ) : List String × List String × List String :=
  if pinnedB p.1 then (acc.1 ++ [p.1], acc.2.1, acc.2.2)
  else if gainB m s p then (acc.1, acc.2.1 ++ [p.1], acc.2.2)
  else if loseB m s p then (acc.1, acc.2.1, acc.2.2 ++ [p.1])
  else acc

/-- The `for coin in oi_diff` classification loop of `send_tg` (main.py
lines 160-169): (pinned coins, gainers, losers), where `m` and `s` stand for
the computed mean and sample standard deviation of the relative changes. -/
def buckets (m s : ℚ) (diff : Dict) : List String × List String × List String :=
  diff.foldl (bucketStep m s) ([], [], [])

/-- The coins the pinned bucket collects, in closed form. -/
def pinsOf (diff : Dict) : List String :=
  (diff.filter (fun p => pinnedB p.1)).map Prod.fst

/-- The coins the gainers bucket collects, in closed form. -/
def gainersOf (m s : ℚ) (diff : Dict) : List String :=
  (diff.filter (fun p => !pinnedB p.1 && gainB m s p)).map Prod.fst

/-- The coins the losers bucket collects, in closed form. -/
def losersOf (m s : ℚ) (diff : Dict) : List String :=
  (diff.filter (fun p => !pinnedB p.1 && !gainB m s p && loseB m s p)).map Prod.fst

/-- The three possible outcomes of one `get_oi_binance` call. -/
inductive BinanceOIResult where
  | payload (coin : String) (value : ℚ)
  | exitRun
  | dropped
deriving DecidableEq

/-- `get_oi_binance` (main.py lines 55-73) as a function of the HTTP status
and the parsed open-interest value: status 200 returns the single-coin dict
`{coin: float(resp['openInterest'])}`; status 429 calls `sys.exit()`, which
kills the whole process (`exitRun`); any other status only prints and falls
through, returning `None` (`dropped`), which enters the `responses` list as
a falsy slot. -/
def get_oi_binance (status : Nat) (openInterest : ℚ) (coin : String) : BinanceOIResult :=
  if status = 200 then .payload coin openInterest
  else if status = 429 then .exitRun
  else .dropped

lemma lookup_cons_pair (c k : String) (v : ℚ) (rest : List (String × ℚ)) :
    List.lookup c ((k, v) :: rest) = if c = k then some v else List.lookup c rest := by
  rcases eq_or_ne c k with h | h
  · subst h; simp [List.lookup]
  · simp [List.lookup, beq_eq_false_iff_ne.mpr h, h]

lemma lookup_dictSet (d : Dict) (k : String) (v : ℚ) (c : String) :
    List.lookup c (dictSet d k v) = if k = c then some v else List.lookup c d := by
  induction d with
  | nil =>
      rw [dictSet, lookup_cons_pair]
      rcases eq_or_ne c k with h | h
      · simp [h]
      · simp [h, Ne.symm h]
  | cons p rest ih =>
      obtain ⟨a, b⟩ := p
      by_cases hak : a = k
      · subst hak
        rw [show dictSet ((a, b) :: rest) a v = (a, v) :: rest from by simp [dictSet]]
        rw [lookup_cons_pair, lookup_cons_pair]
        rcases eq_or_ne c a with h | h
        · simp [h]
        · simp [h, Ne.symm h]
      · simp only [dictSet, if_neg hak]
        rw [lookup_cons_pair, lookup_cons_pair, ih]
        rcases eq_or_ne c a with h | h
        · subst h
          have hkc : k ≠ c := fun hk => hak hk.symm
          simp [hkc]
        · simp [h]

lemma lookup_addContribution (d : Dict) (k : String) (v : ℚ) (c : String) :
    List.lookup c (addContribution d k v) =
      if k = c then some (dictGetD d c + v) else List.lookup c d := by
  rw [addContribution, lookup_dictSet]
  rcases eq_or_ne k c with h | h
  · subst h; rfl
  · simp [h]

lemma dictGetD_addContribution (d : Dict) (k : String) (v : ℚ) (c : String) :
    dictGetD (addContribution d k v) c =
      if k = c then dictGetD d c + v else dictGetD d c := by
  rw [dictGetD, lookup_addContribution]
  rcases eq_or_ne k c with h | h <;> simp [h, dictGetD]

lemma filter_nil_of_any_false {es : List (String × ℚ)} {c : String}
    (he : es.any (fun p => p.1 == c) = false) :
    es.filter (fun p => p.1 == c) = [] := by
  rw [List.filter_eq_nil_iff]
  intro a ha hat
  have h1 : es.any (fun p => p.1 == c) = true := List.any_eq_true.mpr ⟨a, ha, hat⟩
  rw [he] at h1
  exact Bool.false_ne_true h1

lemma lookup_entriesFold (es : List (String × ℚ)) (d : Dict) (c : String) :
    List.lookup c (es.foldl (fun acc p => addContribution acc p.1 p.2) d) =
      if es.any (fun p => p.1 == c) then
        some (dictGetD d c + ((es.filter (fun p => p.1 == c)).map Prod.snd).sum)
      else List.lookup c d := by
  induction es generalizing d with
  | nil => simp
  | cons p rest ih =>
      rw [List.foldl_cons, ih]
      by_cases hpc : p.1 = c
      · have hb : (p.1 == c) = true := beq_iff_eq.mpr hpc
        by_cases hr : rest.any (fun p => p.1 == c) = true
        · simp [List.any_cons, List.filter_cons, hb, hr, dictGetD_addContribution,
            hpc, add_assoc]
        · have hr2 : rest.any (fun p => p.1 == c) = false := Bool.eq_false_iff.mpr hr
          simp [List.any_cons, List.filter_cons, hb, hr2, filter_nil_of_any_false hr2,
            lookup_addContribution, hpc]
      · have hb : (p.1 == c) = false := beq_eq_false_iff_ne.mpr hpc
        have h1 : (p :: rest).any (fun p => p.1 == c) = rest.any (fun p => p.1 == c) := by
          rw [List.any_cons, hb, Bool.false_or]
        have h2 : (p :: rest).filter (fun p => p.1 == c) = rest.filter (fun p => p.1 == c) := by
          rw [List.filter_cons, hb]; simp
        rw [h1, h2, lookup_addContribution, if_neg hpc, dictGetD_addContribution, if_neg hpc]

lemma dictGetD_entriesFold (es : List (String × ℚ)) (d : Dict) (c : String) :
    dictGetD (es.foldl (fun acc p => addContribution acc p.1 p.2) d) c =
      if es.any (fun p => p.1 == c) then
        dictGetD d c + ((es.filter (fun p => p.1 == c)).map Prod.snd).sum
      else dictGetD d c := by
  rw [dictGetD, lookup_entriesFold]
  by_cases he : es.any (fun p => p.1 == c) = true <;> simp [he, dictGetD]

lemma totalContrib_cons (r : AdapterOutput) (rs : List AdapterOutput) (c : String) :
    totalContrib (r :: rs) c = contribSum c r + totalContrib rs c := by
  simp [totalContrib]

lemma reported_cons (r : AdapterOutput) (rs : List AdapterOutput) (c : String) :
    reported (r :: rs) c = (reportsCoin c r || reported rs c) := by
  simp [reported]

lemma totalContrib_eq_zero_of_not_reported (rs : List AdapterOutput) (c : String)
    (h : reported rs c = false) : totalContrib rs c = 0 := by
  induction rs with
  | nil => simp [totalContrib]
  | cons r rest ih =>
      rw [reported_cons] at h
      obtain ⟨h1, h2⟩ := Bool.or_eq_false_iff.mp h
      rw [totalContrib_cons, ih h2, add_zero]
      cases r with
      | absent => simp [contribSum]
      | failure => simp [contribSum]
      | scalar coin v => simp [contribSum, reportsCoin] at h1 ⊢; simp [h1]
      | tagged src es =>
          simp only [reportsCoin] at h1
          simp [contribSum, filter_nil_of_any_false h1]

lemma aggLoop_ok (rs : List AdapterOutput) (h : rs.all wfOutput = true) (d : Dict) :
    ∃ d2, aggLoop d rs = .ok d2 ∧ ∀ c, List.lookup c d2 =
      if reported rs c then some (dictGetD d c + totalContrib rs c)
      else List.lookup c d := by
  induction rs generalizing d with
  | nil => exact ⟨d, rfl, fun c => by simp [reported, totalContrib]⟩
  | cons r rest ih =>
      rw [List.all_cons, Bool.and_eq_true] at h
      cases r with
      | absent =>
          obtain ⟨d2, hd2, hl⟩ := ih h.2 d
          refine ⟨d2, by simpa [aggLoop, processOutput] using hd2, fun c => ?_⟩
          simp [hl c, reported_cons, totalContrib_cons, reportsCoin, contribSum]
      | failure => simp [wfOutput] at h
      | scalar coin v =>
          have h1 := h.1
          simp only [wfOutput, Bool.and_eq_true, Bool.not_eq_true',
            beq_eq_false_iff_ne] at h1
          have hco : ¬(coin = "bybit" ∨ coin = "ftx") := by
            rintro (hx | hx)
            · exact h1.1 hx
            · exact h1.2 hx
          obtain ⟨d2, hd2, hl⟩ := ih h.2 (addContribution d coin v)
          refine ⟨d2, by simpa [aggLoop, processOutput, hco] using hd2, fun c => ?_⟩
          rw [hl c, reported_cons, totalContrib_cons]
          rcases eq_or_ne coin c with hcc | hcc
          · subst hcc
            by_cases hr : reported rest coin = true
            · simp [hr, reportsCoin, contribSum, dictGetD_addContribution, add_assoc]
            · simp [hr, reportsCoin, contribSum, lookup_addContribution,
                totalContrib_eq_zero_of_not_reported rest coin (Bool.eq_false_iff.mpr hr)]
          · have hb : (coin == c) = false := beq_eq_false_iff_ne.mpr hcc
            by_cases hr : reported rest c = true
            · simp [hr, reportsCoin, contribSum, hb, dictGetD_addContribution, hcc]
            · simp [hr, reportsCoin, contribSum, hb, lookup_addContribution, hcc]
      | tagged src es =>
          have h1 := h.1
          simp only [wfOutput, Bool.or_eq_true, beq_iff_eq] at h1
          obtain ⟨d2, hd2, hl⟩ :=
            ih h.2 (es.foldl (fun acc p => addContribution acc p.1 p.2) d)
          refine ⟨d2, by simpa [aggLoop, processOutput, h1] using hd2, fun c => ?_⟩
          rw [hl c, reported_cons, totalContrib_cons]
          by_cases he : es.any (fun p => p.1 == c) = true
          · by_cases hr : reported rest c = true
            · simp [hr, reportsCoin, contribSum, he, dictGetD_entriesFold, add_assoc]
            · simp [hr, reportsCoin, contribSum, he, lookup_entriesFold,
                totalContrib_eq_zero_of_not_reported rest c (Bool.eq_false_iff.mpr hr)]
          · have he2 : es.any (fun p => p.1 == c) = false := Bool.eq_false_iff.mpr he
            by_cases hr : reported rest c = true
            · simp [hr, reportsCoin, contribSum, he2, dictGetD_entriesFold,
                filter_nil_of_any_false he2]
            · simp [hr, reportsCoin, contribSum, he2, lookup_entriesFold]

lemma perm_any_eq {α : Type} (p : α → Bool) {l1 l2 : List α} (h : l1.Perm l2) :
    l1.any p = l2.any p := by
  induction h with
  | nil => rfl
  | cons x _ ih => simp [List.any_cons, ih]
  | swap x y l => simp [List.any_cons, Bool.or_left_comm]
  | trans _ _ ih1 ih2 => rw [ih1, ih2]

/-- C1: for a collection of adapter outputs of the shapes `aggregate_oi`
accepts, the aggregation maps a coin to a value iff at least one output
reports that coin, and the value is the sum of all that coin's contributions
across the scalar-shaped and list-shaped outputs; a coin reported by no
output has no entry at all, not a zero entry. -/
theorem aggregate_oi_maps_iff_reported_and_sums (rs : List AdapterOutput)
    (hWF : rs.all wfOutput = true) (d : Dict) (hagg : aggregate_oi rs = .ok d)
    (c : String) :
    ((List.lookup c d).isSome ↔ reported rs c = true) ∧
      List.lookup c d =
        (if reported rs c then some (totalContrib rs c) else none) := by
  obtain ⟨d2, h1, h2⟩ := aggLoop_ok rs hWF []
  rw [aggregate_oi, h1] at hagg
  injection hagg with hagg
  subst hagg
  have h3 := h2 c
  by_cases hr : reported rs c = true
  · rw [h3]; simp [hr, dictGetD]
  · rw [h3]; simp [hr]

/-- Witness for C1 at the spec's example: the scalar output `{BTC: 100}`
plus the list output `[{BTC: 50}]` aggregate to `{BTC: 150}`. -/
theorem aggregate_oi_maps_iff_reported_and_sums_witness :
    ((List.lookup "BTC" [("BTC", (150 : ℚ))]).isSome ↔
        reported [AdapterOutput.scalar "BTC" 100,
          AdapterOutput.tagged "ftx" [("BTC", 50)]] "BTC" = true) ∧
      List.lookup "BTC" [("BTC", (150 : ℚ))] =
        (if reported [AdapterOutput.scalar "BTC" 100,
            AdapterOutput.tagged "ftx" [("BTC", 50)]] "BTC" then
          some (totalContrib [AdapterOutput.scalar "BTC" 100,
            AdapterOutput.tagged "ftx" [("BTC", 50)]] "BTC") else none) :=
  aggregate_oi_maps_iff_reported_and_sums
    [AdapterOutput.scalar "BTC" 100, AdapterOutput.tagged "ftx" [("BTC", 50)]]
    (by simp [wfOutput])
    [("BTC", (150 : ℚ))]
    (by simp [aggregate_oi, aggLoop, processOutput, addContribution, dictGetD, dictSet]
        norm_num)
    "BTC"

/-- C7: aggregation is order-independent: permuting the list of adapter
outputs yields an identical AggregatedOI mapping (same lookup for every
coin). -/
theorem aggregate_oi_order_independent (rs rs2 : List AdapterOutput)
    (hperm : rs.Perm rs2) (hWF : rs.all wfOutput = true) (d d2 : Dict)
    (h1 : aggregate_oi rs = .ok d) (h2 : aggregate_oi rs2 = .ok d2) (c : String) :
    List.lookup c d = List.lookup c d2 := by
  have hWF2 : rs2.all wfOutput = true := by
    rw [List.all_eq_true] at hWF ⊢
    exact fun o ho => hWF o (hperm.mem_iff.mpr ho)
  obtain ⟨e1, he1, hl1⟩ := aggLoop_ok rs hWF []
  obtain ⟨e2, he2, hl2⟩ := aggLoop_ok rs2 hWF2 []
  rw [aggregate_oi, he1] at h1
  rw [aggregate_oi, he2] at h2
  injection h1 with h1
  injection h2 with h2
  subst h1
  subst h2
  have hrep : reported rs c = reported rs2 c := perm_any_eq (reportsCoin c) hperm
  have htot : totalContrib rs c = totalContrib rs2 c := by
    simp only [totalContrib]
    exact (hperm.map (contribSum c)).sum_eq
  rw [hl1 c, hl2 c, hrep, htot]

/-- Witness for C7: swapping a scalar output and a tagged output yields the
same mapping. -/
theorem aggregate_oi_order_independent_witness :
    List.lookup "BTC" [("BTC", (150 : ℚ)), ("ETH", 2)] =
      List.lookup "BTC" [("ETH", (2 : ℚ)), ("BTC", 150)] :=
  aggregate_oi_order_independent
    [AdapterOutput.scalar "BTC" 100, AdapterOutput.tagged "bybit" [("ETH", 2), ("BTC", 50)]]
    [AdapterOutput.tagged "bybit" [("ETH", 2), ("BTC", 50)], AdapterOutput.scalar "BTC" 100]
    (by decide)
    (by simp [wfOutput])
    [("BTC", (150 : ℚ)), ("ETH", 2)]
    [("ETH", (2 : ℚ)), ("BTC", 150)]
    (by simp [aggregate_oi, aggLoop, processOutput, addContribution, dictGetD, dictSet,
          lookup_cons_pair]
        norm_num)
    (by simp [aggregate_oi, aggLoop, processOutput, addContribution, dictGetD, dictSet,
          lookup_cons_pair]
        norm_num)
    "BTC"

lemma aggLoop_filter_absent (rs : List AdapterOutput) : ∀ d : Dict,
    aggLoop d rs = aggLoop d (rs.filter (fun o => !isAbsent o)) := by
  induction rs with
  | nil => intro d; rfl
  | cons r rest ih =>
      intro d
      cases r with
      | absent => simpa [aggLoop, processOutput, List.filter_cons, isAbsent] using ih d
      | failure => simp [aggLoop, processOutput, List.filter_cons, isAbsent]
      | scalar coin v =>
          by_cases hc : coin = "bybit" ∨ coin = "ftx" <;>
            simp [aggLoop, processOutput, List.filter_cons, isAbsent, hc, ih]
      | tagged src es =>
          by_cases hc : src = "bybit" ∨ src = "ftx" <;>
            simp [aggLoop, processOutput, List.filter_cons, isAbsent, hc, ih]

lemma aggLoop_append (xs ys : List AdapterOutput) : ∀ d : Dict,
    aggLoop d (xs ++ ys) =
      match aggLoop d xs with
      | .ok d2 => aggLoop d2 ys
      | .error e => .error e := by
  induction xs with
  | nil => intro d; rfl
  | cons r rest ih =>
      intro d
      cases hp : processOutput d r with
      | ok d2 => simp [List.cons_append, aggLoop, hp, ih d2]
      | error e => simp [List.cons_append, aggLoop, hp]

/-- C5 (amended): the Aggregator skips exactly the empty/absent slots and
returns the aggregation of the remaining outputs; but a slot holding a
raised failure is NOT skipped — when the loop reaches an exception object it
raises AttributeError, so a failed adapter task whose exception was returned
as a value poisons the whole aggregation. -/
theorem aggregator_skips_absent_slots_only (rs : List AdapterOutput) :
    aggregate_oi rs = aggregate_oi (rs.filter (fun o => !isAbsent o)) ∧
      ∀ pre post, rs = pre ++ AdapterOutput.failure :: post →
        pre.all wfOutput = true → aggregate_oi rs = .error PyErr.attributeError := by
  constructor
  · exact aggLoop_filter_absent rs []
  · rintro pre post rfl hpre
    obtain ⟨d2, hd2, -⟩ := aggLoop_ok pre hpre []
    rw [aggregate_oi, aggLoop_append, hd2]
    rfl

/-- Witness for C5's amended statement: a None slot is skipped, and a
failure slot after a well-formed prefix raises. -/
theorem aggregator_skips_absent_slots_only_witness :
    aggregate_oi [AdapterOutput.absent, AdapterOutput.scalar "BTC" 100] =
        aggregate_oi ([AdapterOutput.absent,
          AdapterOutput.scalar "BTC" 100].filter (fun o => !isAbsent o)) ∧
      aggregate_oi [AdapterOutput.scalar "ETH" 3, AdapterOutput.failure] =
        .error PyErr.attributeError :=
  ⟨(aggregator_skips_absent_slots_only
      [AdapterOutput.absent, AdapterOutput.scalar "BTC" 100]).1,
   (aggregator_skips_absent_slots_only
      [AdapterOutput.scalar "ETH" 3, AdapterOutput.failure]).2
      [AdapterOutput.scalar "ETH" 3] [] rfl (by simp [wfOutput])⟩

/-- C5 counterexample: the claim says a slot holding a raised failure is
skipped, which would make these two outputs aggregate to `{BTC: 100}`; the
code instead raises AttributeError on the exception object. -/
theorem failure_slot_poisons_aggregation_counterexample :
    aggregate_oi [AdapterOutput.failure, AdapterOutput.scalar "BTC" 100] =
        .error PyErr.attributeError ∧
      aggregate_oi [AdapterOutput.failure, AdapterOutput.scalar "BTC" 100] ≠
        .ok [("BTC", (100 : ℚ))] := by
  refine ⟨rfl, ?_⟩
  intro h
  rw [show aggregate_oi [AdapterOutput.failure, AdapterOutput.scalar "BTC" 100] =
      Except.error PyErr.attributeError from rfl] at h
  exact Except.noConfusion h

/-- C6: a per-symbol Binance open-interest query returns the single-coin
payload on status 200, kills the whole process on status 429 (`sys.exit()`),
and on any other status logs and returns None (the value is dropped, not
zero), which the aggregation loop then skips as a falsy slot. -/
theorem binance_oi_status_handling (status : Nat) (v : ℚ) (coin : String) :
    (status = 200 → get_oi_binance status v coin = .payload coin v) ∧
      (status = 429 → get_oi_binance status v coin = .exitRun) ∧
      (status ≠ 200 → status ≠ 429 → get_oi_binance status v coin = .dropped) ∧
      (∀ d : Dict, processOutput d AdapterOutput.absent = .ok d) := by
  refine ⟨fun h => ?_, fun h => ?_, fun h1 h2 => ?_, fun d => rfl⟩
  · simp [get_oi_binance, h]
  · subst h; simp [get_oi_binance]
  · simp [get_oi_binance, h1, h2]

/-- Witness for C6 at statuses 200, 429 and 500. -/
theorem binance_oi_status_handling_witness :
    get_oi_binance 200 5 "BTC" = .payload "BTC" 5 ∧
      get_oi_binance 429 5 "BTC" = .exitRun ∧
      get_oi_binance 500 5 "BTC" = .dropped :=
  ⟨(binance_oi_status_handling 200 5 "BTC").1 rfl,
   (binance_oi_status_handling 429 5 "BTC").2.1 rfl,
   (binance_oi_status_handling 500 5 "BTC").2.2.1 (by decide) (by decide)⟩

lemma relStep_none {prev acc : Dict} {p : String × ℚ}
    (hl : List.lookup p.1 prev = none) :
    relStep prev acc p = .error (.keyError p.1) := by
  rw [relStep, hl]

lemma relStep_some {prev acc : Dict} {p : String × ℚ} {pv : ℚ}
    (hl : List.lookup p.1 prev = some pv) :
    relStep prev acc p =
      if p.2 - pv = 0 then .ok (dictSet acc p.1 0)
      else if pv = 0 then .error .zeroDivisionError
      else .ok (dictSet acc p.1 ((p.2 - pv) / pv)) := by
  rw [relStep, hl]

lemma relStep_ok_inv {prev acc : Dict} {p : String × ℚ} {acc2 : Dict}
    (h : relStep prev acc p = .ok acc2) :
    ∃ pv, List.lookup p.1 prev = some pv ∧
      acc2 = dictSet acc p.1 (if p.2 - pv = 0 then 0 else (p.2 - pv) / pv) ∧
      (p.2 - pv = 0 ∨ pv ≠ 0) := by
  cases hl : List.lookup p.1 prev with
  | none => rw [relStep_none hl] at h; exact absurd h (by simp)
  | some pv =>
      rw [relStep_some hl] at h
      by_cases h0 : p.2 - pv = 0
      · rw [if_pos h0] at h
        injection h with h
        exact ⟨pv, rfl, by rw [if_pos h0, h], Or.inl h0⟩
      · rw [if_neg h0] at h
        by_cases hz : pv = 0
        · rw [if_pos hz] at h; exact absurd h (by simp)
        · rw [if_neg hz] at h
          injection h with h
          exact ⟨pv, rfl, by rw [if_neg h0, h], Or.inr hz⟩

lemma relStep_error_inv {prev acc : Dict} {p : String × ℚ} {e : PyErr}
    (h : relStep prev acc p = .error e) :
    (e = .keyError p.1 ∧ List.lookup p.1 prev = none) ∨
      (e = .zeroDivisionError ∧
        ∃ pv, List.lookup p.1 prev = some pv ∧ pv = 0 ∧ p.2 - pv ≠ 0) := by
  cases hl : List.lookup p.1 prev with
  | none =>
      rw [relStep_none hl] at h
      injection h with h
      exact Or.inl ⟨h.symm, rfl⟩
  | some pv =>
      rw [relStep_some hl] at h
      by_cases h0 : p.2 - pv = 0
      · rw [if_pos h0] at h; exact absurd h (by simp)
      · rw [if_neg h0] at h
        by_cases hz : pv = 0
        · rw [if_pos hz] at h
          injection h with h
          exact Or.inr ⟨h.symm, pv, rfl, hz, h0⟩
        · rw [if_neg hz] at h; exact absurd h (by simp)

lemma diffLoop_lookup_not_mem (prev : Dict) (c : String) :
    ∀ (curr acc d : Dict), c ∉ curr.map Prod.fst →
      diffLoop prev acc curr = .ok d → List.lookup c d = List.lookup c acc := by
  intro curr
  induction curr with
  | nil =>
      intro acc d _ h
      injection h with h
      rw [h]
  | cons p rest ih =>
      intro acc d hc h
      rw [List.map_cons, List.mem_cons, not_or] at hc
      rw [diffLoop] at h
      cases hs : relStep prev acc p with
      | error e => rw [hs] at h; exact absurd h (by simp)
      | ok acc2 =>
          rw [hs] at h
          replace h : diffLoop prev acc2 rest = Except.ok d := h
          obtain ⟨pv, -, hacc2, -⟩ := relStep_ok_inv hs
          subst hacc2
          rw [ih _ d hc.2 h, lookup_dictSet, if_neg (fun hx => hc.1 hx.symm)]

lemma diffLoop_ok_lookup (prev : Dict) :
    ∀ (curr acc d : Dict), diffLoop prev acc curr = .ok d →
      (curr.map Prod.fst).Nodup →
      ∀ c v pv, (c, v) ∈ curr → List.lookup c prev = some pv →
        List.lookup c d = some (if v - pv = 0 then 0 else (v - pv) / pv) := by
  intro curr
  induction curr with
  | nil => intro acc d _ _ c v pv hmem; cases hmem
  | cons p rest ih =>
      intro acc d h hnd c v pv hmem hprev
      rw [List.map_cons, List.nodup_cons] at hnd
      rw [diffLoop] at h
      cases hs : relStep prev acc p with
      | error e => rw [hs] at h; exact absurd h (by simp)
      | ok acc2 =>
          rw [hs] at h
          replace h : diffLoop prev acc2 rest = Except.ok d := h
          rcases List.mem_cons.mp hmem with hm | hm
          · obtain ⟨pv2, hpv2, hacc2, -⟩ := relStep_ok_inv hs
            have hp1 : p.1 = c := by rw [← hm]
            have hp2 : p.2 = v := by rw [← hm]
            rw [hp1] at hpv2 hacc2
            rw [hp2] at hacc2
            rw [hprev] at hpv2
            injection hpv2 with hpv2
            subst hpv2
            have hrest : c ∉ rest.map Prod.fst := hp1 ▸ hnd.1
            rw [diffLoop_lookup_not_mem prev c rest acc2 d hrest h, hacc2,
              lookup_dictSet, if_pos rfl]
          · exact ih acc2 d h hnd.2 c v pv hm hprev

lemma diffLoop_ok_baseline (prev : Dict) :
    ∀ (curr acc d : Dict), diffLoop prev acc curr = .ok d →
      ∀ c, c ∈ curr.map Prod.fst → (List.lookup c prev).isSome = true := by
  intro curr
  induction curr with
  | nil => intro acc d _ c hc; cases hc
  | cons p rest ih =>
      intro acc d h c hc
      rw [diffLoop] at h
      cases hs : relStep prev acc p with
      | error e => rw [hs] at h; exact absurd h (by simp)
      | ok acc2 =>
          rw [hs] at h
          replace h : diffLoop prev acc2 rest = Except.ok d := h
          rcases List.mem_cons.mp hc with hm | hm
          · obtain ⟨pv, hpv, -, -⟩ := relStep_ok_inv hs
            rw [← hm] at hpv
            rw [hpv]
            rfl
          · exact ih acc2 d h c hm

lemma diffLoop_ok_guard (prev : Dict) :
    ∀ (curr acc d : Dict), diffLoop prev acc curr = .ok d →
      ∀ p, p ∈ curr → ∀ pv, List.lookup p.1 prev = some pv →
        (p.2 - pv = 0 ∨ pv ≠ 0) := by
  intro curr
  induction curr with
  | nil => intro acc d _ p hp; cases hp
  | cons q rest ih =>
      intro acc d h p hp pv hpv
      rw [diffLoop] at h
      cases hs : relStep prev acc q with
      | error e => rw [hs] at h; exact absurd h (by simp)
      | ok acc2 =>
          rw [hs] at h
          rcases List.mem_cons.mp hp with hm | hm
          · subst hm
            obtain ⟨pv2, hpv2, -, hg⟩ := relStep_ok_inv hs
            rw [hpv] at hpv2
            injection hpv2 with hpv2
            subst hpv2
            exact hg
          · exact ih acc2 d h p hm pv hpv

lemma diffLoop_error_classify (prev : Dict) :
    ∀ (curr acc : Dict) (e : PyErr), diffLoop prev acc curr = .error e →
      (∃ c, e = .keyError c ∧ c ∈ curr.map Prod.fst ∧ List.lookup c prev = none) ∨
        e = .zeroDivisionError := by
  intro curr
  induction curr with
  | nil => intro acc e h; exact absurd h (by simp [diffLoop])
  | cons p rest ih =>
      intro acc e h
      rw [diffLoop] at h
      cases hs : relStep prev acc p with
      | error e2 =>
          rw [hs] at h
          injection h with h
          subst h
          rcases relStep_error_inv hs with ⟨he, hnone⟩ | ⟨he, -⟩
          · exact Or.inl ⟨p.1, he, by simp, hnone⟩
          · exact Or.inr he
      | ok acc2 =>
          rw [hs] at h
          rcases ih acc2 e h with ⟨c, he, hc, hnone⟩ | he
          · exact Or.inl ⟨c, he, by simp [hc], hnone⟩
          · exact Or.inr he

lemma diffLoop_no_zerodiv (prev : Dict) :
    ∀ (curr acc : Dict),
      (∀ p, p ∈ curr → List.lookup p.1 prev = some 0 → p.2 = 0) →
      diffLoop prev acc curr ≠ .error PyErr.zeroDivisionError := by
  intro curr
  induction curr with
  | nil => intro acc _ h; exact absurd h (by simp [diffLoop])
  | cons p rest ih =>
      intro acc hguard h
      rw [diffLoop] at h
      cases hs : relStep prev acc p with
      | ok acc2 =>
          rw [hs] at h
          exact ih acc2 (fun q hq => hguard q (List.mem_cons_of_mem p hq)) h
      | error e =>
          rw [hs] at h
          injection h with h
          subst h
          rcases relStep_error_inv hs with ⟨he, -⟩ | ⟨-, pv, hpv, hz, hne⟩
          · exact PyErr.noConfusion he
          · subst hz
            have hp2 := hguard p (List.mem_cons_self p rest) hpv
            rw [hp2] at hne
            exact hne (by norm_num)

/-- C2: for every coin present in both the current AggregatedOI and the
prior snapshot, the computed relative change is exactly 0 when the current
value equals the previous value, and (current − previous) / previous
otherwise. -/
theorem relative_change_formula (curr prev d : Dict) (c : String) (v pv : ℚ)
    (hnd : (curr.map Prod.fst).Nodup) (hmem : (c, v) ∈ curr)
    (hprev : List.lookup c prev = some pv)
    (hok : compute_oi_diff curr prev = .ok d) :
    List.lookup c d = some (if v = pv then 0 else (v - pv) / pv) := by
  rw [diffLoop_ok_lookup prev curr [] d hok hnd c v pv hmem hprev]
  congr 1
  exact if_congr sub_eq_zero rfl rfl

/-- Witness for C2 at the spec's examples: prior 100 → current 100 yields 0,
prior 100 → current 150 yields 1/2, prior 100 → current 50 yields −1/2. -/
theorem relative_change_formula_witness :
    List.lookup "A" [("A", (0 : ℚ)), ("B", 1/2), ("C", -1/2)] =
        some (if (100 : ℚ) = 100 then 0 else ((100 : ℚ) - 100) / 100) ∧
      List.lookup "B" [("A", (0 : ℚ)), ("B", 1/2), ("C", -1/2)] =
        some (if (150 : ℚ) = 100 then 0 else ((150 : ℚ) - 100) / 100) ∧
      List.lookup "C" [("A", (0 : ℚ)), ("B", 1/2), ("C", -1/2)] =
        some (if (50 : ℚ) = 100 then 0 else ((50 : ℚ) - 100) / 100) :=
  ⟨relative_change_formula
      [("A", 100), ("B", 150), ("C", 50)] [("A", 100), ("B", 100), ("C", 100)]
      [("A", (0 : ℚ)), ("B", 1/2), ("C", -1/2)] "A" 100 100
      (by simp) (by simp) (by simp [lookup_cons_pair])
      (by simp [compute_oi_diff, diffLoop, relStep, dictSet, lookup_cons_pair] <;> norm_num [dictSet] <;> simp),
   relative_change_formula
      [("A", 100), ("B", 150), ("C", 50)] [("A", 100), ("B", 100), ("C", 100)]
      [("A", (0 : ℚ)), ("B", 1/2), ("C", -1/2)] "B" 150 100
      (by simp) (by simp) (by simp [lookup_cons_pair])
      (by simp [compute_oi_diff, diffLoop, relStep, dictSet, lookup_cons_pair] <;> norm_num [dictSet] <;> simp),
   relative_change_formula
      [("A", 100), ("B", 150), ("C", 50)] [("A", 100), ("B", 100), ("C", 100)]
      [("A", (0 : ℚ)), ("B", 1/2), ("C", -1/2)] "C" 50 100
      (by simp) (by simp) (by simp [lookup_cons_pair])
      (by simp [compute_oi_diff, diffLoop, relStep, dictSet, lookup_cons_pair] <;> norm_num [dictSet] <;> simp)⟩

/-- C8 (amended): the code applies NO fallback policy for a missing
baseline: a coin present in the current AggregatedOI but absent from the
prior snapshot makes the diff loop raise an unhandled KeyError, aborting the
run. -/
theorem missing_baseline_raises (curr prev : Dict) (c : String)
    (hc : c ∈ curr.map Prod.fst) (hnone : List.lookup c prev = none) :
    ∃ e, compute_oi_diff curr prev = .error e := by
  cases h : compute_oi_diff curr prev with
  | error e => exact ⟨e, rfl⟩
  | ok d =>
      have hs := diffLoop_ok_baseline prev curr [] d h c hc
      rw [hnone] at hs
      exact absurd hs (by simp)

/-- Witness for C8's amended statement. -/
theorem missing_baseline_raises_witness :
    ∃ e, compute_oi_diff [("SOL", (5 : ℚ))] [] = .error e :=
  missing_baseline_raises [("SOL", (5 : ℚ))] [] "SOL" (by simp) rfl

/-- C8 counterexample: with current `{SOL: 5}` and an empty prior snapshot
the diff loop raises KeyError; neither fallback policy named in the claim
happens (skipping would give an empty diff, a zero-change baseline would
give `{SOL: 0}`). -/
theorem missing_baseline_counterexample :
    compute_oi_diff [("SOL", (5 : ℚ))] [] = .error (PyErr.keyError "SOL") ∧
      compute_oi_diff [("SOL", (5 : ℚ))] [] ≠ .ok [] ∧
      compute_oi_diff [("SOL", (5 : ℚ))] [] ≠ .ok [("SOL", 0)] := by
  refine ⟨rfl, ?_, ?_⟩ <;> intro h <;>
    rw [show compute_oi_diff [("SOL", (5 : ℚ))] [] =
        .error (PyErr.keyError "SOL") from rfl] at h <;>
    exact Except.noConfusion h

/-- C10: the relative-change division is unguarded — when every coin has a
baseline and some coin has prior value 0 with a different current value, the
loop raises ZeroDivisionError; under the precondition that every coin with a
zero baseline also has current value 0 (prior nonzero or equal to current),
the division-by-zero branch is unreachable. -/
theorem division_by_zero_guard (curr prev : Dict) :
    (((∀ c, c ∈ curr.map Prod.fst → (List.lookup c prev).isSome = true) ∧
        ∃ p, p ∈ curr ∧ List.lookup p.1 prev = some 0 ∧ p.2 ≠ 0) →
      compute_oi_diff curr prev = .error PyErr.zeroDivisionError) ∧
      ((∀ p, p ∈ curr → List.lookup p.1 prev = some 0 → p.2 = 0) →
        compute_oi_diff curr prev ≠ .error PyErr.zeroDivisionError) := by
  constructor
  · rintro ⟨hbase, p, hp, hzero, hne⟩
    cases h : compute_oi_diff curr prev with
    | ok d =>
        rcases diffLoop_ok_guard prev curr [] d h p hp 0 hzero with h0 | h0
        · rw [sub_zero] at h0; exact absurd h0 hne
        · exact absurd rfl h0
    | error e =>
        rcases diffLoop_error_classify prev curr [] e h with ⟨c, rfl, hcmem, hcnone⟩ | rfl
        · have hs := hbase c hcmem
          rw [hcnone] at hs
          exact absurd hs (by simp)
        · rfl
  · intro hguard
    exact diffLoop_no_zerodiv prev curr [] hguard

/-- Witness for C10: prior `{DOGE: 0}` with current `{DOGE: 5}` raises
ZeroDivisionError; prior `{BTC: 100}` with current `{BTC: 120}` cannot. -/
theorem division_by_zero_guard_witness :
    compute_oi_diff [("DOGE", (5 : ℚ))] [("DOGE", (0 : ℚ))] =
        .error PyErr.zeroDivisionError ∧
      compute_oi_diff [("BTC", (120 : ℚ))] [("BTC", (100 : ℚ))] ≠
        .error PyErr.zeroDivisionError :=
  ⟨(division_by_zero_guard [("DOGE", (5 : ℚ))] [("DOGE", (0 : ℚ))]).1
      ⟨by intro c hc
          simp only [List.map_cons, List.map_nil, List.mem_singleton] at hc
          subst hc
          simp [lookup_cons_pair],
       ("DOGE", 5), by simp, by simp [lookup_cons_pair], by norm_num⟩,
   (division_by_zero_guard [("BTC", (120 : ℚ))] [("BTC", (100 : ℚ))]).2
      (by intro p hp h0
          simp only [List.mem_singleton] at hp
          subst hp
          rw [lookup_cons_pair] at h0
          simp only [if_pos rfl, Option.some.injEq] at h0
          exact absurd h0 (by norm_num))⟩

/-- C4 (amended): every fatal condition arising after aggregation — a diff
KeyError or ZeroDivisionError, or the degenerate-statistics failure — makes
`send_tg` abort before building the message and before any Telegram call, so
no partial notification is sent; but the snapshot file has ALREADY been
overwritten (main.py lines 147-148 precede lines 150-158), so after the
abort the durable snapshot holds the CURRENT run's AggregatedOI, not the
previous run's. -/
theorem abort_after_aggregation_keeps_current_snapshot (prev curr : Dict)
    (e : PyErr) (herr : (send_tg prev curr).2 = .error e) :
    (send_tg prev curr).1 = curr ∧ ∀ x, (send_tg prev curr).2 ≠ .ok x := by
  refine ⟨rfl, fun x hx => ?_⟩
  rw [herr] at hx
  exact Except.noConfusion hx

/-- Witness for C4's amended statement: a one-coin run aborts on stdev, yet
the stored snapshot is the current mapping. -/
theorem abort_after_aggregation_keeps_current_snapshot_witness :
    (send_tg [("BTC", (100 : ℚ))] [("BTC", (120 : ℚ))]).1 = [("BTC", (120 : ℚ))] :=
  (abort_after_aggregation_keeps_current_snapshot [("BTC", (100 : ℚ))]
    [("BTC", (120 : ℚ))]
    (PyErr.statisticsError "stdev requires at least two data points")
    (by simp [send_tg, tgOutcome, compute_oi_diff, diffLoop, relStep, dictSet,
          pymean, pystdev] <;> norm_num)).1

/-- C4 counterexample: with prior snapshot `{BTC: 100}` and current
`{BTC: 120}` the run aborts (stdev over one data point), yet the durable
snapshot no longer holds the previous run's AggregatedOI — it was already
overwritten with the current one. -/
theorem snapshot_overwritten_before_abort_counterexample :
    (send_tg [("BTC", (100 : ℚ))] [("BTC", (120 : ℚ))]).2 =
        .error (PyErr.statisticsError "stdev requires at least two data points") ∧
      (send_tg [("BTC", (100 : ℚ))] [("BTC", (120 : ℚ))]).1 ≠ [("BTC", (100 : ℚ))] := by
  constructor
  · simp [send_tg, tgOutcome, compute_oi_diff, diffLoop, relStep, dictSet,
      pymean, pystdev] <;> norm_num
  · intro h
    simp only [send_tg, List.cons.injEq, Prod.mk.injEq] at h
    exact absurd h.1.2 (by norm_num)

/-- C9: when fewer than two coins have relative changes, `statistics.stdev`
(sample standard deviation, n−1 denominator) raises StatisticsError rather
than silently substituting 0, and the fallible tail of `send_tg` errors out,
so no classification and no notification is produced from degenerate
statistics. -/
theorem degenerate_statistics_fails (curr prev d : Dict)
    (hok : compute_oi_diff curr prev = .ok d) (hlen : d.length < 2) :
    pystdev (d.map Prod.snd) =
        .error (PyErr.statisticsError "stdev requires at least two data points") ∧
      ∃ e, (send_tg prev curr).2 = .error e := by
  have hstd : pystdev (d.map Prod.snd) =
      .error (.statisticsError "stdev requires at least two data points") := by
    rw [pystdev, if_pos (by simpa using hlen)]
  refine ⟨hstd, ?_⟩
  have houtcome : (send_tg prev curr).2 = tgOutcome prev curr := rfl
  rw [houtcome]
  simp only [tgOutcome, hok]
  cases hm : pymean (d.map Prod.snd) with
  | error e2 => exact ⟨e2, by simp⟩
  | ok m => exact ⟨_, by rw [hstd]⟩

/-- Witness for C9: a single-coin run (one relative change) errors out. -/
theorem degenerate_statistics_fails_witness :
    pystdev ([("BTC", (0 : ℚ))].map Prod.snd) =
        .error (PyErr.statisticsError "stdev requires at least two data points") ∧
      ∃ e, (send_tg [("BTC", (100 : ℚ))] [("BTC", (100 : ℚ))]).2 = .error e :=
  degenerate_statistics_fails [("BTC", (100 : ℚ))] [("BTC", (100 : ℚ))]
    [("BTC", (0 : ℚ))]
    (by simp [compute_oi_diff, diffLoop, relStep, dictSet, lookup_cons_pair] <;>
      norm_num)
    (by simp)

lemma bucketStep_pinned {m s : ℚ} {acc : List String × List String × List String}
    {p : String × ℚ} (hp : pinnedB p.1 = true) :
    bucketStep m s acc p = (acc.1 ++ [p.1], acc.2.1, acc.2.2) := by
  rw [bucketStep, if_pos hp]

lemma bucketStep_gain {m s : ℚ} {acc : List String × List String × List String}
    {p : String × ℚ} (hp : pinnedB p.1 = false) (hg : gainB m s p = true) :
    bucketStep m s acc p = (acc.1, acc.2.1 ++ [p.1], acc.2.2) := by
  rw [bucketStep, if_neg (by simp [hp]), if_pos hg]

lemma bucketStep_lose {m s : ℚ} {acc : List String × List String × List String}
    {p : String × ℚ} (hp : pinnedB p.1 = false) (hg : gainB m s p = false)
    (hl : loseB m s p = true) :
    bucketStep m s acc p = (acc.1, acc.2.1, acc.2.2 ++ [p.1]) := by
  rw [bucketStep, if_neg (by simp [hp]), if_neg (by simp [hg]), if_pos hl]

lemma bucketStep_none {m s : ℚ} {acc : List String × List String × List String}
    {p : String × ℚ} (hp : pinnedB p.1 = false) (hg : gainB m s p = false)
    (hl : loseB m s p = false) :
    bucketStep m s acc p = acc := by
  rw [bucketStep, if_neg (by simp [hp]), if_neg (by simp [hg]), if_neg (by simp [hl])]

lemma buckets_fold (m s : ℚ) (diff : Dict) : ∀ a b c : List String,
    diff.foldl (bucketStep m s) (a, b, c) =
      (a ++ pinsOf diff, b ++ gainersOf m s diff, c ++ losersOf m s diff) := by
  induction diff with
  | nil => intro a b c; simp [pinsOf, gainersOf, losersOf]
  | cons p rest ih =>
      intro a b c
      rw [List.foldl_cons]
      cases hp : pinnedB p.1 with
      | true =>
          rw [bucketStep_pinned hp, ih]
          simp [pinsOf, gainersOf, losersOf, List.filter_cons, hp, List.append_assoc]
      | false =>
          cases hg : gainB m s p with
          | true =>
              rw [bucketStep_gain hp hg, ih]
              simp [pinsOf, gainersOf, losersOf, List.filter_cons, hp, hg,
                List.append_assoc]
          | false =>
              cases hl : loseB m s p with
              | true =>
                  rw [bucketStep_lose hp hg hl, ih]
                  simp [pinsOf, gainersOf, losersOf, List.filter_cons, hp, hg, hl,
                    List.append_assoc]
              | false =>
                  rw [bucketStep_none hp hg hl, ih]
                  simp [pinsOf, gainersOf, losersOf, List.filter_cons, hp, hg, hl]

lemma buckets_eq (m s : ℚ) (diff : Dict) :
    buckets m s diff = (pinsOf diff, gainersOf m s diff, losersOf m s diff) := by
  rw [buckets, buckets_fold]
  simp

lemma mem_pinsOf {diff : Dict} {x : String} :
    x ∈ pinsOf diff ↔ ∃ v, (x, v) ∈ diff ∧ pinnedB x = true := by
  constructor
  · intro hx
    obtain ⟨p, hp, rfl⟩ := List.mem_map.mp hx
    obtain ⟨hmem, hfilt⟩ := List.mem_filter.mp hp
    exact ⟨p.2, hmem, hfilt⟩
  · rintro ⟨v, hmem, hp⟩
    exact List.mem_map.mpr ⟨(x, v), List.mem_filter.mpr ⟨hmem, hp⟩, rfl⟩

lemma mem_gainersOf {m s : ℚ} {diff : Dict} {x : String} :
    x ∈ gainersOf m s diff ↔
      ∃ v, (x, v) ∈ diff ∧ pinnedB x = false ∧ gainB m s (x, v) = true := by
  constructor
  · intro hx
    obtain ⟨p, hp, rfl⟩ := List.mem_map.mp hx
    obtain ⟨hmem, hfilt⟩ := List.mem_filter.mp hp
    rw [Bool.and_eq_true, Bool.not_eq_true'] at hfilt
    exact ⟨p.2, hmem, hfilt.1, hfilt.2⟩
  · rintro ⟨v, hmem, hp, hg⟩
    exact List.mem_map.mpr
      ⟨(x, v), List.mem_filter.mpr ⟨hmem, by simp [hp, hg]⟩, rfl⟩

lemma mem_losersOf {m s : ℚ} {diff : Dict} {x : String} :
    x ∈ losersOf m s diff ↔
      ∃ v, (x, v) ∈ diff ∧ pinnedB x = false ∧ gainB m s (x, v) = false ∧
        loseB m s (x, v) = true := by
  constructor
  · intro hx
    obtain ⟨p, hp, rfl⟩ := List.mem_map.mp hx
    obtain ⟨hmem, hfilt⟩ := List.mem_filter.mp hp
    rw [Bool.and_eq_true, Bool.and_eq_true, Bool.not_eq_true', Bool.not_eq_true']
      at hfilt
    exact ⟨p.2, hmem, hfilt.1.1, hfilt.1.2, hfilt.2⟩
  · rintro ⟨v, hmem, hp, hg, hl⟩
    exact List.mem_map.mpr
      ⟨(x, v), List.mem_filter.mpr ⟨hmem, by simp [hp, hg, hl]⟩, rfl⟩

lemma val_eq_of_keys_nodup : ∀ {l : Dict}, (l.map Prod.fst).Nodup →
    ∀ {c : String} {v w : ℚ}, (c, v) ∈ l → (c, w) ∈ l → v = w := by
  intro l
  induction l with
  | nil => intro _ c v w h1; cases h1
  | cons p rest ih =>
      intro hnd c v w h1 h2
      rw [List.map_cons, List.nodup_cons] at hnd
      rcases List.mem_cons.mp h1 with h1 | h1 <;> rcases List.mem_cons.mp h2 with h2 | h2
      · have h3 : (c, v) = (c, w) := h1.trans h2.symm
        injection h3 with _ h3
      · exfalso
        apply hnd.1
        rw [← h1]
        exact List.mem_map.mpr ⟨(c, w), h2, rfl⟩
      · exfalso
        apply hnd.1
        rw [← h2]
        exact List.mem_map.mpr ⟨(c, v), h1, rfl⟩
      · exact ih hnd.2 h1 h2

lemma pinnedB_true_iff {c : String} : pinnedB c = true ↔ (c = "ETH" ∨ c = "BTC") := by
  simp [pinnedB]

lemma pinnedB_false_of_not {c : String} (h : ¬(c = "ETH" ∨ c = "BTC")) :
    pinnedB c = false := by
  rw [Bool.eq_false_iff]
  intro hx
  exact h (pinnedB_true_iff.mp hx)

/-- C3: every coin with a computed relative change is classified into at
most one bucket, tested in precedence order: a pinned coin (ETH or BTC)
always lands in the pinned bucket regardless of its change; otherwise a coin
with change ≥ mean + stdev lands in gainers; otherwise a coin with change ≤
mean − stdev lands in losers; otherwise the coin is in no bucket; and the
three buckets are pairwise disjoint (`m` and `s` stand for the computed mean
and sample standard deviation of the changes of the run). -/
theorem classification_precedence_and_disjointness (m s : ℚ) (diff : Dict)
    (hnd : (diff.map Prod.fst).Nodup) :
    (∀ c v, (c, v) ∈ diff →
      ((c = "ETH" ∨ c = "BTC") → c ∈ (buckets m s diff).1 ∧
        c ∉ (buckets m s diff).2.1 ∧ c ∉ (buckets m s diff).2.2) ∧
      (¬(c = "ETH" ∨ c = "BTC") → v ≥ m + s → c ∈ (buckets m s diff).2.1 ∧
        c ∉ (buckets m s diff).1 ∧ c ∉ (buckets m s diff).2.2) ∧
      (¬(c = "ETH" ∨ c = "BTC") → ¬(v ≥ m + s) → v ≤ m - s →
        c ∈ (buckets m s diff).2.2 ∧ c ∉ (buckets m s diff).1 ∧
          c ∉ (buckets m s diff).2.1) ∧
      (¬(c = "ETH" ∨ c = "BTC") → ¬(v ≥ m + s) → ¬(v ≤ m - s) →
        c ∉ (buckets m s diff).1 ∧ c ∉ (buckets m s diff).2.1 ∧
          c ∉ (buckets m s diff).2.2)) ∧
    (∀ x, (x ∈ (buckets m s diff).1 →
        x ∉ (buckets m s diff).2.1 ∧ x ∉ (buckets m s diff).2.2) ∧
      (x ∈ (buckets m s diff).2.1 → x ∉ (buckets m s diff).2.2)) := by
  rw [buckets_eq]
  constructor
  · intro c v hmem
    refine ⟨fun hpin => ?_, fun hnp hge => ?_, fun hnp hnge hle => ?_,
      fun hnp hnge hnle => ?_⟩
    · have hp : pinnedB c = true := pinnedB_true_iff.mpr hpin
      refine ⟨mem_pinsOf.mpr ⟨v, hmem, hp⟩, fun hx => ?_, fun hx => ?_⟩
      · obtain ⟨w, -, hpf, -⟩ := mem_gainersOf.mp hx
        rw [hp] at hpf
        exact Bool.false_ne_true hpf.symm
      · obtain ⟨w, -, hpf, -, -⟩ := mem_losersOf.mp hx
        rw [hp] at hpf
        exact Bool.false_ne_true hpf.symm
    · have hp : pinnedB c = false := pinnedB_false_of_not hnp
      have hg : gainB m s (c, v) = true := by simp [gainB, hge]
      refine ⟨mem_gainersOf.mpr ⟨v, hmem, hp, hg⟩, fun hx => ?_, fun hx => ?_⟩
      · obtain ⟨w, -, hpt⟩ := mem_pinsOf.mp hx
        rw [hp] at hpt
        exact Bool.false_ne_true hpt
      · obtain ⟨w, hwmem, -, hgf, -⟩ := mem_losersOf.mp hx
        rw [val_eq_of_keys_nodup hnd hwmem hmem] at hgf
        rw [hg] at hgf
        exact Bool.false_ne_true hgf.symm
    · have hp : pinnedB c = false := pinnedB_false_of_not hnp
      have hg : gainB m s (c, v) = false := by simp [gainB, hnge]
      have hl : loseB m s (c, v) = true := by simp [loseB, hle]
      refine ⟨mem_losersOf.mpr ⟨v, hmem, hp, hg, hl⟩, fun hx => ?_, fun hx => ?_⟩
      · obtain ⟨w, -, hpt⟩ := mem_pinsOf.mp hx
        rw [hp] at hpt
        exact Bool.false_ne_true hpt
      · obtain ⟨w, hwmem, -, hgt⟩ := mem_gainersOf.mp hx
        rw [val_eq_of_keys_nodup hnd hwmem hmem] at hgt
        rw [hg] at hgt
        exact Bool.false_ne_true hgt
    · have hp : pinnedB c = false := pinnedB_false_of_not hnp
      have hg : gainB m s (c, v) = false := by simp [gainB, hnge]
      have hl : loseB m s (c, v) = false := by simp [loseB, hnle]
      refine ⟨fun hx => ?_, fun hx => ?_, fun hx => ?_⟩
      · obtain ⟨w, -, hpt⟩ := mem_pinsOf.mp hx
        rw [hp] at hpt
        exact Bool.false_ne_true hpt
      · obtain ⟨w, hwmem, -, hgt⟩ := mem_gainersOf.mp hx
        rw [val_eq_of_keys_nodup hnd hwmem hmem] at hgt
        rw [hg] at hgt
        exact Bool.false_ne_true hgt
      · obtain ⟨w, hwmem, -, -, hlt⟩ := mem_losersOf.mp hx
        rw [val_eq_of_keys_nodup hnd hwmem hmem] at hlt
        rw [hl] at hlt
        exact Bool.false_ne_true hlt
  · intro x
    constructor
    · intro hx
      obtain ⟨v, -, hpt⟩ := mem_pinsOf.mp hx
      constructor
      · intro hy
        obtain ⟨w, -, hpf, -⟩ := mem_gainersOf.mp hy
        rw [hpt] at hpf
        exact Bool.false_ne_true hpf.symm
      · intro hy
        obtain ⟨w, -, hpf, -, -⟩ := mem_losersOf.mp hy
        rw [hpt] at hpf
        exact Bool.false_ne_true hpf.symm
    · intro hx hy
      obtain ⟨v, hvmem, -, hgt⟩ := mem_gainersOf.mp hx
      obtain ⟨w, hwmem, -, hgf, -⟩ := mem_losersOf.mp hy
      rw [val_eq_of_keys_nodup hnd hwmem hvmem] at hgf
      rw [hgt] at hgf
      exact Bool.false_ne_true hgf.symm

/-- Witness for C3 with mean 0 and standard deviation 5: BTC (change 50,
well above threshold) still lands in the pinned bucket only; SOL (10) is a
gainer only; ADA (−10) is a loser only; XRP (1) is in no bucket. -/
theorem classification_precedence_and_disjointness_witness :
    ("BTC" ∈ (buckets (0 : ℚ) 5
        [("BTC", 50), ("SOL", 10), ("ADA", -10), ("XRP", 1)]).1 ∧
      "BTC" ∉ (buckets (0 : ℚ) 5
        [("BTC", 50), ("SOL", 10), ("ADA", -10), ("XRP", 1)]).2.1 ∧
      "BTC" ∉ (buckets (0 : ℚ) 5
        [("BTC", 50), ("SOL", 10), ("ADA", -10), ("XRP", 1)]).2.2) ∧
    ("SOL" ∈ (buckets (0 : ℚ) 5
        [("BTC", 50), ("SOL", 10), ("ADA", -10), ("XRP", 1)]).2.1 ∧
      "SOL" ∉ (buckets (0 : ℚ) 5
        [("BTC", 50), ("SOL", 10), ("ADA", -10), ("XRP", 1)]).1 ∧
      "SOL" ∉ (buckets (0 : ℚ) 5
        [("BTC", 50), ("SOL", 10), ("ADA", -10), ("XRP", 1)]).2.2) ∧
    ("ADA" ∈ (buckets (0 : ℚ) 5
        [("BTC", 50), ("SOL", 10), ("ADA", -10), ("XRP", 1)]).2.2 ∧
      "ADA" ∉ (buckets (0 : ℚ) 5
        [("BTC", 50), ("SOL", 10), ("ADA", -10), ("XRP", 1)]).1 ∧
      "ADA" ∉ (buckets (0 : ℚ) 5
        [("BTC", 50), ("SOL", 10), ("ADA", -10), ("XRP", 1)]).2.1) ∧
    ("XRP" ∉ (buckets (0 : ℚ) 5
        [("BTC", 50), ("SOL", 10), ("ADA", -10), ("XRP", 1)]).1 ∧
      "XRP" ∉ (buckets (0 : ℚ) 5
        [("BTC", 50), ("SOL", 10), ("ADA", -10), ("XRP", 1)]).2.1 ∧
      "XRP" ∉ (buckets (0 : ℚ) 5
        [("BTC", 50), ("SOL", 10), ("ADA", -10), ("XRP", 1)]).2.2) := by
  have T := classification_precedence_and_disjointness (0 : ℚ) 5
    [("BTC", 50), ("SOL", 10), ("ADA", -10), ("XRP", 1)] (by simp)
  refine ⟨?_, ?_, ?_, ?_⟩
  · exact (T.1 "BTC" 50 (by simp)).1 (Or.inr rfl)
  · exact (T.1 "SOL" 10 (by simp)).2.1 (by simp) (by norm_num)
  · exact (T.1 "ADA" (-10) (by simp)).2.2.1 (by simp) (by norm_num) (by norm_num)
  · exact (T.1 "XRP" 1 (by simp)).2.2.2 (by simp) (by norm_num) (by norm_num)

end CryptoOI
